import Mathlib

/-!
Verification of the ResellerLocator inventory server against its
natural-language specification.

The development shallowly embeds the server-side logic of the repository:
the header mapper, the CSV and spreadsheet parsers, the upload (import)
orchestrator, the in-memory record store (`MemStorage`) and the bin / item
route handlers.  JavaScript strings are modelled as Lean `String`, with the
JS string operations (`toLowerCase`, `trim`, `split`, `replace`) defined
explicitly over the underlying character list so that every definition is
executable and every concrete fact is decidable.  Timestamps are modelled
as natural numbers, and the single external effect (UUID generation) is
modelled by a counter carried in the store.
-/

namespace ResellerLocator

/-! JavaScript string primitives -/

/-- ASCII lower-casing of one character, as `String.prototype.toLowerCase`
acts on the ASCII range (all repository data is ASCII). -/
def lcChar (c : Char) : Char :=
  if 'A' ≤ c ∧ c ≤ 'Z' then Char.ofNat (c.toNat + 32) else c

/-- JS whitespace test used by `String.prototype.trim` (ASCII fragment). -/
def isWS (c : Char) : Bool :=
  c = ' ' || c = '\t' || c = '\n' || c = '\r'

def trimChars (l : List Char) : List Char :=
  ((l.dropWhile isWS).reverse.dropWhile isWS).reverse

/-- JS `s.trim()`. -/
def jsTrim (s : String) : String := ⟨trimChars s.data⟩

/-- JS `s.toLowerCase()`. -/
def jsLower (s : String) : String := ⟨s.data.map lcChar⟩

/-- JS `s.split(sep)` for a one-character separator; `"".split(sep) = [""]`. -/
def splitOnChar (sep : Char) : List Char → List (List Char)
  | [] => [[]]
  | c :: cs =>
    let r := splitOnChar sep cs
    if c = sep then [] :: r
    else
      match r with
      | h :: t => (c :: h) :: t
      | [] => [[c]]

def jsSplit (sep : Char) (s : String) : List String :=
  (splitOnChar sep s.data).map String.mk

/-- JS `s.replace(/"/g, '')`: remove every double-quote character. -/
def removeQuotes (s : String) : String := ⟨s.data.filter (fun c => c ≠ '"')⟩

def isLowerNum (c : Char) : Bool :=
  ('a' ≤ c && c ≤ 'z') || ('0' ≤ c && c ≤ '9')

/-! Header Mapper (`normalizeHeader`, `COLUMN_MAPPINGS`, `mapHeaders`) -/

/-- Source `normalizeHeader` from `routes`: `header.toLowerCase().trim().replace(/[^a-z0-9]/g, '')`. -/
def normalizeHeader (header : String) : String :=
  ⟨(trimChars (jsLower header).data).filter isLowerNum⟩

structure ColumnSpec where
  field : String
  required : Bool
  aliases : List String
  deriving DecidableEq, Repr

/-- The `COLUMN_MAPPINGS` table, in declared order. -/
def columnMappings : List ColumnSpec :=
  [ ⟨"description", true,
      ["description", "item", "product", "name", "item_name", "product_name",
       "title", "item_description"]⟩,
    ⟨"binLocation", true,
      ["bin_location", "binlocation", "bin location", "bin", "location",
       "bin_name", "storage", "storage_location"]⟩,
    ⟨"brand", false, ["brand", "manufacturer", "make", "company"]⟩,
    ⟨"size", false, ["size", "sizing", "dimensions", "measurement"]⟩,
    ⟨"color", false, ["color", "colour", "shade", "hue"]⟩,
    ⟨"category", false, ["category", "type", "group", "classification", "kind"]⟩,
    ⟨"condition", false, ["condition", "quality", "state", "grade", "status"]⟩,
    ⟨"price", false, ["price", "cost", "value", "amount", "retail", "retail_price"]⟩,
    ⟨"notes", false,
      ["notes", "comments", "remarks", "description_notes", "additional_info",
       "extra", "details"]⟩ ]

/-- The `fileHeaders.map(h => ({original: h, normalized: normalizeHeader(h)}))` list. -/
def normPairs (fileHeaders : List String) : List (String × String) :=
  fileHeaders.map (fun h => (h, normalizeHeader h))

/-- The inner alias loop of `mapHeaders`: scan the alias list in order and
return the original text of the first file header whose normalized form
equals the alias's normalized form. -/
def findAlias (nfh : List (String × String)) : List String → Option String
  | [] => none
  | a :: rest =>
    match nfh.find? (fun fh => fh.2 = normalizeHeader a) with
    | some fh => some fh.1
    | none => findAlias nfh rest

/-- The `Object.entries(COLUMN_MAPPINGS).forEach` loop: build the
canonical-field binding list and the missing required-field list. -/
def mapFields (nfh : List (String × String)) :
    List ColumnSpec → List (String × String) × List String
  | [] => ([], [])
  | spec :: rest =>
    let r := mapFields nfh rest
    match findAlias nfh spec.aliases with
    | some orig => ((spec.field, orig) :: r.1, r.2)
    | none => (r.1, if spec.required then spec.field :: r.2 else r.2)

structure MapResult where
  headerMap : List (String × String)
  unmapped : List String
  missing : List String
  deriving DecidableEq, Repr

/-- Source `mapHeaders` from `routes`. -/
def mapHeaders (fileHeaders : List String) : MapResult :=
  let nfh := normPairs fileHeaders
  let r := mapFields nfh columnMappings
  let mappedOriginals := r.1.map (fun p => p.2)
  { headerMap := r.1,
    unmapped := fileHeaders.filter (fun h => ¬ mappedOriginals.contains h),
    missing := r.2 }

/-- Specification-side binder, written from the spec's words: for one
canonical field, scan its alias list in declared order and take the first
file header whose normalized form matches. -/
def firstAliasMatch (aliases : List String) (fileHeaders : List String) : Option String :=
  aliases.findSome? (fun a => fileHeaders.find? (fun h => normalizeHeader h = normalizeHeader a))

/-! CSV parser (`parseCSV`) -/

/-- The per-field transform `.trim().replace(/"/g, '')` of `parseCSV`. -/
def cleanField (s : String) : String := removeQuotes (jsTrim s)

/-- JS object property assignment `o[k] = v` on an insertion-ordered record. -/
def objSet (o : List (String × String)) (k v : String) : List (String × String) :=
  if o.any (fun p => p.1 = k) then
    o.map (fun p => if p.1 = k then (k, v) else p)
  else o ++ [(k, v)]

/-- The `headers.forEach((header, index) => item[header] = values[index] || '')`
loop of `parseCSV`, with the running index made explicit. -/
def mkRowCSVGo (values : List String) :
    List String → Nat → List (String × String) → List (String × String)
  | [], _, o => o
  | h :: hs, i, o => mkRowCSVGo values hs (i + 1) (objSet o h (values.getD i ""))

def mkRowCSV (headers values : List String) : List (String × String) :=
  mkRowCSVGo values headers 0 []

/-- Source `parseCSV` from `routes`: newline split, blank lines dropped, first
line is the header row, comma split, every quote character removed. -/
def parseCSV (content : String) : List (List (String × String)) :=
  let lines := (jsSplit '\n' content).filter (fun l => ¬ jsTrim l = "")
  match lines with
  | [] => []
  | headerLine :: rows =>
    let headers := (jsSplit ',' headerLine).map cleanField
    rows.map (fun row => mkRowCSV headers ((jsSplit ',' row).map cleanField))

/-- Specification-side field transform, from the claim's words: strip one
layer of surrounding double quotes from the (trimmed) field if present. -/
def stripSurroundingQuotes (s : String) : String :=
  let t := jsTrim s
  match t.data with
  | '"' :: rest =>
    match rest.getLast? with
    | some '"' => ⟨rest.dropLast⟩
    | _ => t
  | _ => t

/-- The delimited-text parser as claim C4 literally describes it: identical
row structure, but each field only has one layer of surrounding quotes
stripped. -/
def parseCSVClaimed (content : String) : List (List (String × String)) :=
  let lines := (jsSplit '\n' content).filter (fun l => ¬ jsTrim l = "")
  match lines with
  | [] => []
  | headerLine :: rows =>
    let headers := (jsSplit ',' headerLine).map stripSurroundingQuotes
    rows.map (fun row =>
      mkRowCSV headers ((jsSplit ',' row).map stripSurroundingQuotes))

/-- Pad (or cut) a value list to exactly `n` cells, filling with `""`. -/
def padTo (n : Nat) (l : List String) : List String :=
  l.take n ++ List.replicate (n - l.length) ""

/-- Amended specification-side parser: the same pipeline described with the
row record built by zipping the header list with the value list padded by
empty strings, and each field trimmed with every quote character removed. -/
def mkRowZip (headers values : List String) : List (String × String) :=
  (headers.zip (padTo headers.length values)).foldl
    (fun o p => objSet o p.1 p.2) []

def parseCSVAmended (content : String) : List (List (String × String)) :=
  let lines := (jsSplit '\n' content).filter (fun l => ¬ jsTrim l = "")
  match lines with
  | [] => []
  | headerLine :: rows =>
    let headers := (jsSplit ',' headerLine).map (fun f => removeQuotes (jsTrim f))
    rows.map (fun row =>
      mkRowZip headers ((jsSplit ',' row).map (fun f => removeQuotes (jsTrim f))))

/-! Spreadsheet parser (`parseSpreadsheet`, post-decode logic)

The XLSX decode step is external; the model starts from the
`sheet_to_json(worksheet, header: 1)` output: a workbook is a list of
(sheet name, cell grid) pairs in `SheetNames` order, and each cell is the
string rendering `String(cell || '')` of the raw cell. -/

/-- Worksheet selection: the sheet named "Master Inventory" when present,
otherwise the first sheet; no sheet at all raises (`none`). -/
def chooseSheet (wb : List (String × List (List String))) :
    Option (List (List String)) :=
  match wb with
  | [] => none
  | (_, g0) :: _ =>
    if (wb.map (fun p => p.1)).contains "Master Inventory" then
      wb.lookup "Master Inventory"
    else some g0

/-- One row "looks like a header row": at least 2 non-empty trimmed cells
after excluding literal "Master Inventory" cells. -/
def qualifiesHeaderRow (r : List String) : Bool :=
  2 ≤ ((r.map jsTrim).filter
        (fun h => h != "" && h != "Master Inventory")).length

/-- The `for (let i = 0; i < Math.min(5, jsonData.length); i++)` scan with
its `break`: first qualifying row index plus that row trimmed. -/
def scanHeader : List (List String) → Nat → Option (Nat × List String)
  | [], _ => none
  | r :: rs, i =>
    if qualifiesHeaderRow r then some (i, r.map jsTrim)
    else scanHeader rs (i + 1)

/-- Chosen header row index and headers, with the row-0 fallback when no
scanned row qualifies. -/
def headerChoice (g : List (List String)) : Nat × List String :=
  match scanHeader (g.take 5) 0 with
  | some p => p
  | none => (0, (g.headD []).map jsTrim)

/-- The `headers.forEach((header, colIndex) => ...)` loop of
`parseSpreadsheet`: skip empty header names, trim each cell. -/
def mkRowSheetGo (row : List String) :
    List String → Nat → List (String × String) → List (String × String)
  | [], _, o => o
  | h :: hs, i, o =>
    mkRowSheetGo row hs (i + 1)
      (if h != "" then objSet o h (jsTrim (row.getD i "")) else o)

def mkRowSheet (headers row : List String) : List (String × String) :=
  mkRowSheetGo row headers 0 []

/-- Source `parseSpreadsheet` from `routes`, after workbook decoding. -/
def parseSpreadsheetRows (wb : List (String × List (List String))) :
    Option (List (List (String × String))) :=
  match chooseSheet wb with
  | none => none
  | some jsonData =>
    if jsonData.isEmpty then some []
    else
      let c := headerChoice jsonData
      let dataRows := (jsonData.drop (c.1 + 1)).filter
        (fun row => 0 < row.length && row.any (fun cell => ¬ jsTrim cell = ""))
      some (dataRows.map (fun row => mkRowSheet c.2 row))

/-! Data model (`shared/schema`) and `MemStorage`

Timestamps are natural numbers; `randomUUID` is modelled by a counter held
in the store (ids are the counter's decimal rendering).  JS `Array.sort`
(a stable sort) is modelled by `List.insertionSort`; `localeCompare` is
modelled as code-unit lexicographic comparison, which agrees with it on
the ASCII same-case data handled here. -/

structure Item where
  id : String
  description : String
  binLocation : String
  brand : Option String
  size : Option String
  color : Option String
  category : Option String
  condition : Option String
  price : Option String
  notes : Option String
  status : String
  soldDate : Option Nat
  soldPrice : Option String
  createdAt : Nat
  updatedAt : Nat
  deriving DecidableEq, Repr

structure Bin where
  id : String
  name : String
  color : String
  createdAt : Nat
  updatedAt : Nat
  deriving DecidableEq, Repr

/-- The `insertItemSchema` output: everything but id, timestamps and the sold
fields; `MemStorage.createItem` forces `status: "active"` regardless of
input, so no status field is carried. -/
structure InsertItem where
  description : String
  binLocation : String
  brand : Option String
  size : Option String
  color : Option String
  category : Option String
  condition : Option String
  price : Option String
  notes : Option String
  deriving DecidableEq, Repr

/-- Payload of `updateItemSchema` = `insertItemSchema.partial()`: every column except
id/timestamps/sold fields is individually optional, `status` included. -/
structure UpdateItem where
  description : Option String
  binLocation : Option String
  brand : Option String
  size : Option String
  color : Option String
  category : Option String
  condition : Option String
  price : Option String
  notes : Option String
  status : Option String
  deriving DecidableEq, Repr

structure InsertBin where
  name : String
  color : String
  deriving DecidableEq, Repr

/-- The `updateBinSchema` payload (name and color individually optional). -/
structure UpdateBin where
  name : Option String
  color : Option String
  deriving DecidableEq, Repr

/-- The `markSoldSchema` payload; the date string is modelled pre-parsed. -/
structure MarkSold where
  soldPrice : Option String
  soldDate : Option Nat
  deriving DecidableEq, Repr

structure Store where
  items : List Item
  bins : List Bin
  counter : Nat
  now : Nat
  deriving DecidableEq, Repr

/-- Comparator `(a, b) => b.createdAt - a.createdAt` (newest first). -/
def itemLe (a b : Item) : Prop := b.createdAt ≤ a.createdAt

instance : DecidableRel itemLe := fun a b => Nat.decLe b.createdAt a.createdAt

/-- Code-unit lexicographic strict order on character lists (the model of
`localeCompare` on the ASCII data in play). -/
def lexLt : List Char → List Char → Bool
  | [], [] => false
  | [], _ :: _ => true
  | _ :: _, [] => false
  | a :: as, b :: bs => if a < b then true else if b < a then false else lexLt as bs

/-- Model of `a.localeCompare(b) <= 0`. -/
def lexLe (a b : List Char) : Bool := !(lexLt b a)

def digitsToNat (l : List Char) : Nat :=
  l.foldl (fun n c => n * 10 + (c.toNat - 48)) 0

/-- One attempt of the regex `Bin-(\d+)` at the current position: a
literal "Bin-" immediately followed by at least one digit, capturing the
maximal digit run. -/
def binNumAt : List Char → Option Nat
  | 'B' :: 'i' :: 'n' :: '-' :: c :: rest =>
    if c.isDigit then some (digitsToNat ((c :: rest).takeWhile Char.isDigit))
    else none
  | _ => none

/-- First match of the regex `Bin-(\d+)` in a character list (leftmost
position wins, as in JS `String.prototype.match`). -/
def extractBinNum : List Char → Option Nat
  | [] => none
  | c :: cs =>
    match binNumAt (c :: cs) with
    | some n => some n
    | none => extractBinNum cs

/-- The `MemStorage.getAllBins` comparator: numeric on the `Bin-(\d+)`
capture when both names match, else `localeCompare`. -/
def binLe (a b : Bin) : Prop :=
  (match extractBinNum a.name.data, extractBinNum b.name.data with
   | some na, some nb => decide (na ≤ nb)
   | _, _ => lexLe a.name.data b.name.data) = true

instance : DecidableRel binLe := fun _ _ => instDecidableEqBool _ _

/-! Item operations -/

def getAllItems (s : Store) : List Item := s.items.insertionSort itemLe

def getItemById (s : Store) (id : String) : Option Item :=
  s.items.find? (fun it => it.id = id)

def getItemsByBin (s : Store) (binLocation : String) : List Item :=
  (s.items.filter
    (fun it => jsLower it.binLocation = jsLower binLocation)).insertionSort itemLe

def createItem (s : Store) (ins : InsertItem) : Item × Store :=
  let it : Item :=
    { id := toString s.counter
      description := ins.description
      binLocation := ins.binLocation
      brand := ins.brand
      size := ins.size
      color := ins.color
      category := ins.category
      condition := ins.condition
      price := ins.price
      notes := ins.notes
      status := "active"
      soldDate := none
      soldPrice := none
      createdAt := s.now
      updatedAt := s.now }
  (it, { s with items := s.items ++ [it], counter := s.counter + 1 })

def createMultipleItems (s : Store) : List InsertItem → List Item × Store
  | [] => ([], s)
  | ins :: rest =>
    let r := createItem s ins
    let rs := createMultipleItems r.2 rest
    (r.1 :: rs.1, rs.2)

/-- The spread `{...existingItem, ...updates, updatedAt: new Date()}`. -/
def applyItemUpdate (it : Item) (u : UpdateItem) (now : Nat) : Item :=
  { it with
    description := u.description.getD it.description
    binLocation := u.binLocation.getD it.binLocation
    brand := match u.brand with | some v => some v | none => it.brand
    size := match u.size with | some v => some v | none => it.size
    color := match u.color with | some v => some v | none => it.color
    category := match u.category with | some v => some v | none => it.category
    condition := match u.condition with | some v => some v | none => it.condition
    price := match u.price with | some v => some v | none => it.price
    notes := match u.notes with | some v => some v | none => it.notes
    status := u.status.getD it.status
    updatedAt := now }

def updateItem (s : Store) (id : String) (u : UpdateItem) : Option Item × Store :=
  match getItemById s id with
  | none => (none, s)
  | some it =>
    let it' := applyItemUpdate it u s.now
    (some it', { s with items := s.items.map (fun x => if x.id = id then it' else x) })

def markAsSold (s : Store) (id : String) (sd : MarkSold) : Option Item × Store :=
  match getItemById s id with
  | none => (none, s)
  | some it =>
    let it' : Item :=
      { it with
        status := "sold"
        soldDate := some (sd.soldDate.getD s.now)
        soldPrice := match sd.soldPrice with
          | some p => if p = "" then none else some p
          | none => none
        updatedAt := s.now }
    (some it', { s with items := s.items.map (fun x => if x.id = id then it' else x) })

/-! Bin operations -/

def getAllBins (s : Store) : List Bin := s.bins.insertionSort binLe

def getBinById (s : Store) (id : String) : Option Bin :=
  s.bins.find? (fun b => b.id = id)

def getBinByName (s : Store) (name : String) : Option Bin :=
  s.bins.find? (fun b => jsLower b.name = jsLower name)

def createBin (s : Store) (ins : InsertBin) : Bin × Store :=
  let b : Bin :=
    { id := toString s.counter
      name := ins.name
      color := ins.color
      createdAt := s.now
      updatedAt := s.now }
  (b, { s with bins := s.bins ++ [b], counter := s.counter + 1 })

def createMultipleBins (s : Store) : List InsertBin → List Bin × Store
  | [] => ([], s)
  | ins :: rest =>
    let r := createBin s ins
    let rs := createMultipleBins r.2 rest
    (r.1 :: rs.1, rs.2)

def applyBinUpdate (b : Bin) (u : UpdateBin) (now : Nat) : Bin :=
  { b with
    name := u.name.getD b.name
    color := u.color.getD b.color
    updatedAt := now }

def updateBin (s : Store) (id : String) (u : UpdateBin) : Option Bin × Store :=
  match getBinById s id with
  | none => (none, s)
  | some b =>
    let b' := applyBinUpdate b u s.now
    (some b', { s with bins := s.bins.map (fun x => if x.id = id then b' else x) })

def deleteBin (s : Store) (id : String) : Bool × Store :=
  (s.bins.any (fun b => b.id = id),
   { s with bins := s.bins.filter (fun b => ¬ b.id = id) })

/-! Route handlers (`registerRoutes`)

Each handler is a function from store and validated request data to a
response value and the successor store.  The bin schemas are not present
under `src/`; per the spec a bin `name`, when supplied, is a required
non-empty string, which together with the JS truthiness test
`validatedData.name && ...` makes "a name was supplied" the guard
condition modelled below. -/

inductive BinUpdateResponse
  | notFound
  | nameExists
  | hasItems (itemCount : Nat)
  | ok (bin : Bin)
  deriving DecidableEq, Repr

/-- Handler for `PATCH /api/bins/:id`. -/
def updateBinHandler (s : Store) (id : String) (u : UpdateBin) :
    BinUpdateResponse × Store :=
  match getBinById s id with
  | none => (.notFound, s)
  | some currentBin =>
    let finishUpdate : BinUpdateResponse × Store :=
      match updateBin s id u with
      | (some b, s') => (.ok b, s')
      | (none, s') => (.notFound, s')
    let itemsCheck : BinUpdateResponse × Store :=
      let c := (getItemsByBin s currentBin.name).length
      if 0 < c then (.hasItems c, s) else finishUpdate
    match u.name with
    | some n =>
      if ¬ n = "" ∧ ¬ n = currentBin.name then
        match getBinByName s n with
        | some existingBin =>
          if ¬ existingBin.id = id then (.nameExists, s) else itemsCheck
        | none => itemsCheck
      else finishUpdate
    | none => finishUpdate

inductive BinDeleteResponse
  | notFound
  | hasItems (itemCount : Nat)
  | deleted
  deriving DecidableEq, Repr

/-- Handler for `DELETE /api/bins/:id`. -/
def deleteBinHandler (s : Store) (id : String) : BinDeleteResponse × Store :=
  match getBinById s id with
  | none => (.notFound, s)
  | some existingBin =>
    let c := (getItemsByBin s existingBin.name).length
    if 0 < c then (.hasItems c, s)
    else
      let r := deleteBin s id
      if r.1 then (.deleted, r.2) else (.notFound, r.2)

inductive SoldResponse
  | notFound
  | alreadySold
  | ok (item : Item)
  deriving DecidableEq, Repr

/-- Handler for `PATCH /api/items/:id/sold`. -/
def markSoldHandler (s : Store) (id : String) (sd : MarkSold) :
    SoldResponse × Store :=
  match getItemById s id with
  | none => (.notFound, s)
  | some existingItem =>
    if existingItem.status = "sold" then (.alreadySold, s)
    else
      match markAsSold s id sd with
      | (some it, s') => (.ok it, s')
      | (none, s') => (.notFound, s')

/-- Handler for `PATCH /api/items/:id` (generic partial update). -/
def updateItemHandler (s : Store) (id : String) (u : UpdateItem) :
    Option Item × Store :=
  updateItem s id u

/-- The 31-color palette of `generateDefaultBinsData` (the later revision
of `routes`, gray `#808080` first for Bin-0). -/
def binColors : List String :=
  ["#808080",
   "#FF6B6B", "#4ECDC4", "#45B7D1", "#96CEB4", "#FFEAA7",
   "#DDA0DD", "#FF9FF3", "#54A0FF", "#5F27CD", "#00D2D3",
   "#FF9F43", "#EE5A24", "#0ABDE3", "#00CEC9", "#6C5CE7",
   "#A29BFE", "#FD79A8", "#E17055", "#00B894", "#FDCB6E",
   "#E84393", "#74B9FF", "#81ECEC", "#FAB1A0", "#32CD32",
   "#FF7675", "#9B59B6", "#F39C12", "#E67E22", "#55A3FF"]

/-- Source `generateDefaultBinsData`: duplicate-color check, then Bin-0..Bin-30. -/
def generateDefaultBinsData : Option (List InsertBin) :=
  if binColors.dedup.length ≠ binColors.length then none
  else some ((List.range 31).map
    (fun i => ⟨"Bin-" ++ toString i, binColors.getD i ""⟩))

inductive SeedResponse
  | alreadyExists (existingCount : Nat)
  | created (count : Nat) (bins : List Bin)
  | failure
  deriving DecidableEq, Repr

/-- Handler for `POST /api/bins/seed`. -/
def seedBinsHandler (s : Store) : SeedResponse × Store :=
  let existingBins := getAllBins s
  if 0 < existingBins.length then (.alreadyExists existingBins.length, s)
  else
    match generateDefaultBinsData with
    | none => (.failure, s)
    | some defaultBinsData =>
      let r := createMultipleBins s defaultBinsData
      (.created r.1.length r.1, r.2)

/-- Handler for `GET /api/export` item selection (`""` renders a falsy/absent query
parameter, which disables the corresponding filter). -/
def exportItems (s : Store) (binLocation : String) (category : String) :
    List Item :=
  let items0 := getAllItems s
  let items1 :=
    if ¬ binLocation = "" then
      items0.filter (fun it => it.binLocation = binLocation)
    else items0
  if ¬ category = "" then items1.filter (fun it => it.category = some category)
  else items1

/-! Upload orchestrator (`POST /api/items/upload`) -/

structure UploadOutcome where
  success : Bool
  created : Nat
  errors : Nat
  errorDetails : List String
  deriving DecidableEq, Repr

inductive UploadResponse
  | emptyFile
  | missingColumns (message : String) (missing : List String)
      (unmapped : List String) (availableHeaders : List String)
  | ok (outcome : UploadOutcome)
  deriving DecidableEq, Repr

/-- Build the candidate item from one parsed row via the header map
(`headerMap.f ? (row[headerMap.f] || '') : ''`, price with `undefined`
in place of the empty default). -/
def rowToItemData (hm : List (String × String)) (row : List (String × String)) :
    InsertItem :=
  let getF := fun (field : String) =>
    match hm.lookup field with
    | some orig => (row.lookup orig).getD ""
    | none => ""
  { description := getF "description"
    binLocation := getF "binLocation"
    brand := some (getF "brand")
    size := some (getF "size")
    color := some (getF "color")
    category := some (getF "category")
    condition := some (getF "condition")
    price :=
      match hm.lookup "price" with
      | some orig =>
        let v := (row.lookup orig).getD ""
        if v = "" then none else some v
      | none => none
    notes := some (getF "notes") }

/-- A row passes validation iff its resolved description and binLocation
are both non-empty (the string-typed creation schema cannot otherwise
fail on parsed cell text). -/
def validRow (hm : List (String × String)) (row : List (String × String)) : Bool :=
  ¬ ((rowToItemData hm row).description = "" ∨
     (rowToItemData hm row).binLocation = "")

def rowErrMsg (i : Nat) : String :=
  "Row " ++ toString (i + 2) ++
    ": Missing required fields (description and bin_location)"

/-- The `for (let index = 0; ...)` row loop: accumulate validated items
and per-row error strings. -/
def processRows (hm : List (String × String)) :
    List (List (String × String)) → Nat → List InsertItem × List String
  | [], _ => ([], [])
  | row :: rest, i =>
    let r := processRows hm rest (i + 1)
    let itemData := rowToItemData hm row
    if itemData.description = "" ∨ itemData.binLocation = "" then
      (r.1, rowErrMsg i :: r.2)
    else (itemData :: r.1, r.2)

/-- The upload handler, starting from the parsed row sequence (the
parser-variant dispatch on the file extension precedes this). -/
def uploadHandler (s : Store) (parsedData : List (List (String × String))) :
    UploadResponse × Store :=
  if parsedData.isEmpty then (.emptyFile, s)
  else
    let fileHeaders := (parsedData.headD []).map (fun p => p.1)
    let m := mapHeaders fileHeaders
    if ¬ m.missing = [] then
      (.missingColumns
        ("Missing required columns: " ++ String.intercalate ", " m.missing)
        m.missing m.unmapped fileHeaders, s)
    else
      let pr := processRows m.headerMap parsedData 0
      let r := createMultipleItems s pr.1
      (.ok ⟨true, r.1.length, pr.2.length, pr.2⟩, r.2)

/-! Specification-side comparator for claim C8

`trailingNum` reads the maximal digit suffix of a name — the "trailing
integer in the bin name" of the claim — unlike the code's `Bin-(\d+)`
capture. -/

def trailingNum (s : String) : Option Nat :=
  let ds := s.data.reverse.takeWhile Char.isDigit
  if ds = [] then none else some (digitsToNat ds.reverse)

/-- The comparator claim C8 describes: numeric on trailing integers when
both names carry one, else lexicographic. -/
def claimBinLe (a b : Bin) : Bool :=
  match trailingNum a.name, trailingNum b.name with
  | some na, some nb => decide (na ≤ nb)
  | _, _ => lexLe a.name.data b.name.data

/-! Concrete example data -/

def exStore : Store := ⟨[], [], 0, 0⟩

def c1Rows : List (List (String × String)) :=
  parseCSV "description,bin_location\nShoe,Bin-1\n,Bin-2"

def c2Rows : List (List (String × String)) :=
  parseCSV "item,price\nShoe,5"

def wbEx : List (String × List (List String)) :=
  [("Sheet1", [["Master Inventory"], ["description", "bin_location"],
               ["Shoe", "Bin-1"]])]

def gEx : List (List String) :=
  [["Master Inventory"], ["description", "bin_location"], ["Shoe", "Bin-1"]]

def c6Bin : Bin := ⟨"b1", "Bin-1", "#FF6B6B", 1, 1⟩

def c6Item : Item :=
  ⟨"i1", "Widget", "BIN-1", none, none, none, none, none, none, none,
   "active", none, none, 1, 1⟩

def c6Store : Store := ⟨[c6Item], [c6Bin], 5, 9⟩

def c6EmptyBinStore : Store := ⟨[], [c6Bin], 5, 9⟩

def c6Upd : UpdateBin := ⟨some "Bin-2", none⟩

def c7Item : Item :=
  ⟨"i1", "Widget", "Bin-1", none, none, none, none, none, none, none,
   "sold", some 5, some "10.00", 1, 5⟩

def c7Store : Store := ⟨[c7Item], [], 2, 6⟩

def c7Upd : UpdateItem :=
  ⟨none, none, none, none, none, none, none, none, none, some "active"⟩

def c8BinA10 : Bin := ⟨"b1", "A-10", "#111111", 1, 1⟩

def c8BinA2 : Bin := ⟨"b2", "A-2", "#222222", 2, 2⟩

def c8Store : Store := ⟨[], [c8BinA10, c8BinA2], 3, 9⟩

def c8NumStore : Store :=
  ⟨[], [⟨"b3", "Bin-10", "#111111", 1, 1⟩, ⟨"b4", "Bin-2", "#222222", 2, 2⟩],
   5, 9⟩

def c10Item : Item :=
  ⟨"i1", "Widget", "Bin-1", none, none, none, none, none, none, none,
   "active", none, none, 1, 1⟩

def c10Store : Store := ⟨[c10Item], [], 2, 5⟩

def seedInsertBins : List InsertBin :=
  (List.range 31).map (fun i => ⟨"Bin-" ++ toString i, binColors.getD i ""⟩)

/-! Supporting lemmas -/

theorem getD_eq_headD_drop (l : List String) (i : Nat) :
    l.getD i "" = (l.drop i).headD "" := by
  induction l generalizing i with
  | nil => cases i <;> rfl
  | cons a l ih =>
    cases i with
    | zero => rfl
    | succ j => simp only [List.getD_cons_succ, List.drop_succ_cons]; exact ih j

theorem find?_normPairs (hs : List String) (x : String) :
    (normPairs hs).find? (fun fh => fh.2 = x) =
      (hs.find? (fun h => normalizeHeader h = x)).map
        (fun h => (h, normalizeHeader h)) := by
  induction hs with
  | nil => rfl
  | cons h t ih =>
    by_cases hx : normalizeHeader h = x
    · simp [normPairs, List.find?, hx]
    · simpa [normPairs, List.find?, hx] using ih

theorem findAlias_eq (hs : List String) (al : List String) :
    findAlias (normPairs hs) al = firstAliasMatch al hs := by
  induction al with
  | nil => rfl
  | cons a rest ih =>
    rw [findAlias, find?_normPairs, firstAliasMatch, List.findSome?_cons]
    cases hs.find? (fun h => normalizeHeader h = normalizeHeader a) with
    | none => simpa [firstAliasMatch] using ih
    | some h => rfl

theorem mapFields_eq (nfh : List (String × String)) (specs : List ColumnSpec) :
    mapFields nfh specs =
      (specs.filterMap
        (fun s => (findAlias nfh s.aliases).map (fun o => (s.field, o))),
       (specs.filter
          (fun s => s.required && (findAlias nfh s.aliases).isNone)).map
         (fun s => s.field)) := by
  induction specs with
  | nil => rfl
  | cons s rest ih =>
    rw [mapFields, ih]
    cases h : findAlias nfh s.aliases with
    | none => cases hr : s.required <;> simp [List.filterMap_cons, h, hr]
    | some o => simp [List.filterMap_cons, h]

theorem mkRowCSVGo_zip (hs : List String) (vals : List String) (i : Nat)
    (o : List (String × String)) :
    mkRowCSVGo vals hs i o =
      (hs.zip (padTo hs.length (vals.drop i))).foldl
        (fun o p => objSet o p.1 p.2) o := by
  induction hs generalizing i o with
  | nil => rfl
  | cons h t ih =>
    have hd : vals.drop (i + 1) = (vals.drop i).drop 1 := by
      rw [List.drop_drop]
    cases e : vals.drop i with
    | nil =>
      have hv : vals.getD i "" = "" := by rw [getD_eq_headD_drop, e]; rfl
      have ht : vals.drop (i + 1) = [] := by rw [hd, e]; rfl
      rw [mkRowCSVGo, ih, hv, ht]
      simp [padTo, List.replicate_succ]
    | cons v vs =>
      have hv : vals.getD i "" = v := by rw [getD_eq_headD_drop, e]; rfl
      have ht : vals.drop (i + 1) = vs := by rw [hd, e]; rfl
      rw [mkRowCSVGo, ih, hv, ht]
      simp [padTo, Nat.succ_sub_succ]

theorem mkRowCSV_eq_zip (headers values : List String) :
    mkRowCSV headers values = mkRowZip headers values := by
  simpa [mkRowCSV, mkRowZip] using mkRowCSVGo_zip headers values 0 []

/-! Claim theorems: header mapper and CSV parser -/

/-- Claim C3: the Header Mapper binds each canonical field to the original
text of the first file header — scanning the field's alias list in declared
order — whose normalized form (lowercase, trimmed, characters outside
a-z0-9 removed) equals the alias's normalized form; "Bin Location",
"bin_location" and "BIN-LOCATION" all normalize identically and map to
binLocation, and alias order rather than file column order decides which
header wins when several could satisfy one canonical field. -/
theorem c3_header_mapper :
    (∀ fileHeaders : List String,
      (mapHeaders fileHeaders).headerMap =
        columnMappings.filterMap
          (fun s => (firstAliasMatch s.aliases fileHeaders).map
            (fun o => (s.field, o)))) ∧
    (normalizeHeader "Bin Location" = "binlocation" ∧
     normalizeHeader "bin_location" = "binlocation" ∧
     normalizeHeader "BIN-LOCATION" = "binlocation") ∧
    ((mapHeaders ["Bin Location"]).headerMap.lookup "binLocation" =
        some "Bin Location") ∧
    ((mapHeaders ["bin_location"]).headerMap.lookup "binLocation" =
        some "bin_location") ∧
    ((mapHeaders ["BIN-LOCATION"]).headerMap.lookup "binLocation" =
        some "BIN-LOCATION") ∧
    ((mapHeaders ["location", "bin"]).headerMap.lookup "binLocation" =
        some "bin") := by
  refine ⟨fun fileHeaders => ?_, by decide, by decide, by decide, by decide, by decide⟩
  rw [mapHeaders, mapFields_eq]
  exact List.filterMap_congr (fun s _ => by rw [findAlias_eq])

/-- Claim C4 counterexample: `parseCSV` removes every double-quote
character from a field, it does not merely strip one surrounding layer:
on the file "h\na\"b" the code yields field "ab" while the claimed
one-layer stripping yields "a\"b". -/
theorem c4_counterexample :
    parseCSV "h\na\"b" = [[("h", "ab")]] ∧
    parseCSVClaimed "h\na\"b" = [[("h", "a\"b")]] ∧
    parseCSV "h\na\"b" ≠ parseCSVClaimed "h\na\"b" := by decide

/-- Claim C4 (amended): the parser splits rows on newlines dropping blank
lines, takes the first remaining line as the header row, splits each line
on commas, trims each field and removes every double-quote character from
it (rather than stripping only one surrounding layer); the quoted
round-trip example parses as the claim states. -/
theorem c4_amended :
    (∀ content, parseCSV content = parseCSVAmended content) ∧
    parseCSV "description,bin_location\n\"Shoe\",\"Bin-1\"" =
      [[("description", "Shoe"), ("bin_location", "Bin-1")]] := by
  refine ⟨fun content => ?_, by decide⟩
  rw [parseCSV, parseCSVAmended]
  cases (jsSplit '\n' content).filter (fun l => ¬ jsTrim l = "") with
  | nil => rfl
  | cons headerLine rows =>
    simp only [cleanField]
    exact List.map_congr_left (fun row _ => mkRowCSV_eq_zip _ _)

theorem getD_take_of_lt {l : List (List String)} {n j : Nat} (h : j < n) :
    (l.take n).getD j [] = l.getD j [] := by
  simp [List.getD, List.getElem?_take, h]

theorem scanHeader_spec (rows : List (List String)) (i : Nat) :
    (scanHeader rows i = none ∧ ∀ r ∈ rows, qualifiesHeaderRow r = false) ∨
    (∃ j, j < rows.length ∧ qualifiesHeaderRow (rows.getD j []) = true ∧
      (∀ m, m < j → qualifiesHeaderRow (rows.getD m []) = false) ∧
      scanHeader rows i = some (i + j, (rows.getD j []).map jsTrim)) := by
  induction rows generalizing i with
  | nil => exact Or.inl ⟨rfl, by simp⟩
  | cons r rs ih =>
    by_cases hq : qualifiesHeaderRow r
    · refine Or.inr ⟨0, by simp, by simpa using hq,
        fun m hm => absurd hm (by omega), ?_⟩
      simp [scanHeader, hq]
    · have hq' : qualifiesHeaderRow r = false := by simpa using hq
      rcases ih (i + 1) with ⟨hnone, hall⟩ | ⟨j, hj, hqj, hmin, heq⟩
      · refine Or.inl ⟨?_, ?_⟩
        · simp [scanHeader, hq', hnone]
        · intro x hx
          rcases List.mem_cons.mp hx with hx | hx
          · exact hx ▸ hq'
          · exact hall x hx
      · refine Or.inr ⟨j + 1, by simpa using hj, by simpa using hqj, ?_, ?_⟩
        · intro m hm
          cases m with
          | zero => exact hq'
          | succ m => exact hmin m (by omega)
        · have : i + (j + 1) = i + 1 + j := by omega
          simp [scanHeader, hq', this, heq]

theorem dataRow_filter_eq (rows : List (List String)) :
    rows.filter
        (fun row => 0 < row.length && row.any (fun cell => ¬ jsTrim cell = "")) =
      rows.filter (fun row => ¬ row.all (fun cell => jsTrim cell = "")) := by
  apply List.filter_congr
  intro r _
  rw [Bool.eq_iff_iff]
  simp only [Bool.and_eq_true, decide_eq_true_eq, List.any_eq_true,
    List.all_eq_true]
  constructor
  · rintro ⟨_, c, hc, hne⟩ hall
    exact hne (hall c hc)
  · intro h
    push_neg at h
    obtain ⟨c, hc, hne⟩ := h
    exact ⟨List.length_pos.mpr (List.ne_nil_of_mem hc), c, hc, hne⟩

theorem lookup_eq_find? {β : Type} (l : List (String × β)) (k : String) :
    l.lookup k = (l.find? (fun p => p.1 = k)).map (fun p => p.2) := by
  induction l with
  | nil => rfl
  | cons q t ih =>
    match q with
    | (a, b) =>
      by_cases h : a = k
      · have h1 : (k == a) = true := by simpa [beq_iff_eq] using h.symm
        simp [List.lookup_cons, List.find?_cons, h1, h]
      · have h1 : (k == a) = false := by
          rw [beq_eq_false_iff_ne]
          exact fun he => h he.symm
        simp [List.lookup_cons, List.find?_cons, h1, h, ih]

theorem chooseSheet_eq (wb : List (String × List (List String))) :
    chooseSheet wb =
      (match wb.find? (fun p => p.1 = "Master Inventory") with
       | some p => some p.2
       | none => wb.head?.map (fun p => p.2)) := by
  match wb with
  | [] => rfl
  | q :: rest =>
    by_cases hmi : ∃ p ∈ q :: rest, p.1 = "Master Inventory"
    · have hc : (((q :: rest).map (fun p => p.1)).contains "Master Inventory")
          = true := by
        rcases hmi with ⟨p, hp, he⟩
        exact List.elem_iff.mpr (List.mem_map.mpr ⟨p, hp, he⟩)
      have hf : (((q :: rest).find? (fun p => p.1 = "Master Inventory")).isSome)
          = true := by
        rw [List.find?_isSome]
        rcases hmi with ⟨p, hp, he⟩
        exact ⟨p, hp, by simpa using he⟩
      obtain ⟨p, hfind⟩ := Option.isSome_iff_exists.mp hf
      rw [chooseSheet, hc, if_pos rfl, lookup_eq_find?, hfind]
      rfl
    · have hc : (((q :: rest).map (fun p => p.1)).contains "Master Inventory")
          = false := by
        rw [Bool.eq_false_iff]
        intro hmem
        rcases List.mem_map.mp (List.elem_iff.mp hmem) with ⟨p, hp, he⟩
        exact hmi ⟨p, hp, he⟩
      have hf : ((q :: rest).find? (fun p => p.1 = "Master Inventory")) = none := by
        rw [List.find?_eq_none]
        intro x hx
        simpa using fun he => hmi ⟨x, hx, he⟩
      rw [chooseSheet, hc, if_neg Bool.false_ne_true, hf]
      rfl

/-- Claim C5: worksheet selection prefers the sheet named exactly
"Master Inventory", else the first sheet; the header row is the first of
the at-most-5 scanned rows with at least 2 non-empty cells excluding
literal "Master Inventory" cells, with fallback to row 0; rows after the
header row that are entirely empty after trimming are discarded and the
survivors are emitted in file order. -/
theorem c5_spreadsheet_pipeline :
    (∀ wb : List (String × List (List String)),
      chooseSheet wb =
        (match wb.find? (fun p => p.1 = "Master Inventory") with
         | some p => some p.2
         | none => wb.head?.map (fun p => p.2))) ∧
    (∀ wb g, chooseSheet wb = some g → ¬ g = [] →
      ∃ i hs, headerChoice g = (i, hs) ∧
        ((i < 5 ∧ i < g.length ∧ qualifiesHeaderRow (g.getD i []) = true ∧
            (∀ m, m < i → qualifiesHeaderRow (g.getD m []) = false) ∧
            hs = (g.getD i []).map jsTrim) ∨
         (i = 0 ∧ (∀ r ∈ g.take 5, qualifiesHeaderRow r = false) ∧
            hs = (g.headD []).map jsTrim)) ∧
        parseSpreadsheetRows wb =
          some (((g.drop (i + 1)).filter
              (fun row => ¬ row.all (fun cell => jsTrim cell = ""))).map
            (fun row => mkRowSheet hs row))) ∧
    parseSpreadsheetRows
        [("Sheet1", [["Master Inventory"], ["description", "bin_location"],
                     ["Shoe", "Bin-1"]])] =
      some [[("description", "Shoe"), ("bin_location", "Bin-1")]] := by
  refine ⟨chooseSheet_eq, fun wb g hg hne => ?_, by decide⟩
  have hemp : g.isEmpty = false := by
    cases g with
    | nil => exact absurd rfl hne
    | cons a l => rfl
  rcases scanHeader_spec (g.take 5) 0 with ⟨hnone, hall⟩ | ⟨j, hj, hqj, hmin, heq⟩
  · refine ⟨0, (g.headD []).map jsTrim, ?_, Or.inr ⟨rfl, hall, rfl⟩, ?_⟩
    · rw [headerChoice, hnone]
    · rw [parseSpreadsheetRows, hg]
      simp only [hemp, Bool.false_eq_true, if_false, headerChoice, hnone,
        dataRow_filter_eq]
  · have hj5 : j < 5 := by
      have := hj
      rw [List.length_take] at this
      omega
    have hjg : j < g.length := by
      have := hj
      rw [List.length_take] at this
      omega
    have hgetj : (g.take 5).getD j [] = g.getD j [] := getD_take_of_lt hj5
    refine ⟨j, (g.getD j []).map jsTrim, ?_, Or.inl ⟨hj5, hjg, ?_, ?_, rfl⟩, ?_⟩
    · rw [headerChoice, heq, Nat.zero_add, hgetj]
    · rw [← hgetj]; exact hqj
    · intro m hm
      rw [← getD_take_of_lt (lt_trans hm hj5)]
      exact hmin m hm
    · rw [parseSpreadsheetRows, hg]
      simp only [hemp, Bool.false_eq_true, if_false, headerChoice, heq,
        Nat.zero_add, hgetj, dataRow_filter_eq]

theorem processRows_fst (hm : List (String × String))
    (rows : List (List (String × String))) (i : Nat) :
    (processRows hm rows i).1 =
      (rows.filter (validRow hm)).map (rowToItemData hm) := by
  induction rows generalizing i with
  | nil => rfl
  | cons row rest ih =>
    by_cases h : (rowToItemData hm row).description = "" ∨
        (rowToItemData hm row).binLocation = ""
    · have hv : validRow hm row = false := by simp [validRow, h]
      simp [processRows, h, List.filter_cons, hv, ih]
    · have hv : validRow hm row = true := by simp [validRow, h]
      simp [processRows, h, List.filter_cons, hv, ih]

theorem processRows_snd (hm : List (String × String))
    (rows : List (List (String × String))) (i : Nat) :
    (processRows hm rows i).2 =
      (rows.enumFrom i).filterMap
        (fun p => if validRow hm p.2 then none else some (rowErrMsg p.1)) := by
  induction rows generalizing i with
  | nil => rfl
  | cons row rest ih =>
    by_cases h : (rowToItemData hm row).description = "" ∨
        (rowToItemData hm row).binLocation = ""
    · have hv : validRow hm row = false := by simp [validRow, h]
      simp [processRows, h, List.enumFrom, List.filterMap_cons, hv, ih]
    · have hv : validRow hm row = true := by simp [validRow, h]
      simp [processRows, h, List.enumFrom, List.filterMap_cons, hv, ih]

theorem processRows_snd_length (hm : List (String × String))
    (rows : List (List (String × String))) (i : Nat) :
    (processRows hm rows i).2.length =
      (rows.filter (fun r => ¬ validRow hm r)).length := by
  induction rows generalizing i with
  | nil => rfl
  | cons row rest ih =>
    by_cases h : (rowToItemData hm row).description = "" ∨
        (rowToItemData hm row).binLocation = ""
    · have hv : validRow hm row = false := by simp [validRow, h]
      simp [processRows, h, List.filter_cons, hv, ih]
    · have hv : validRow hm row = true := by simp [validRow, h]
      simp [processRows, h, List.filter_cons, hv, ih]

theorem createMultipleItems_fst_length (l : List InsertItem) (s : Store) :
    ((createMultipleItems s l).1).length = l.length := by
  induction l generalizing s with
  | nil => rfl
  | cons ins rest ih => simp [createMultipleItems, ih]

/-- Claim C1: when the parsed row sequence is non-empty and no required
column is missing, the upload responds success with `created` the number
of rows that passed validation, `errors` the number that failed, and
`errorDetails` one "Row N:" message per failed row at N = 0-based index
plus 2, in row order; row failures never abort the import and bulk
creation of the valid rows is what produces the successor store, even
when zero rows are valid. -/
theorem c1_upload_outcome (s : Store)
    (parsedData : List (List (String × String)))
    (h1 : ¬ parsedData = [])
    (h2 : (mapHeaders ((parsedData.headD []).map (fun p => p.1))).missing = []) :
    (uploadHandler s parsedData).1 =
      .ok { success := true,
            created := (parsedData.filter
              (validRow (mapHeaders ((parsedData.headD []).map
                (fun p => p.1))).headerMap)).length,
            errors := (parsedData.filter
              (fun r => ¬ validRow (mapHeaders ((parsedData.headD []).map
                (fun p => p.1))).headerMap r)).length,
            errorDetails := (parsedData.enum).filterMap
              (fun p =>
                if validRow (mapHeaders ((parsedData.headD []).map
                    (fun q => q.1))).headerMap p.2
                then none else some (rowErrMsg p.1)) } ∧
    (uploadHandler s parsedData).2 =
      (createMultipleItems s ((parsedData.filter
        (validRow (mapHeaders ((parsedData.headD []).map
          (fun p => p.1))).headerMap)).map
        (rowToItemData (mapHeaders ((parsedData.headD []).map
          (fun p => p.1))).headerMap))).2 := by
  have hemp : parsedData.isEmpty = false := by
    cases parsedData with
    | nil => exact absurd rfl h1
    | cons a l => rfl
  rw [uploadHandler]
  simp only [hemp, Bool.false_eq_true, if_false]
  rw [if_neg (not_not_intro h2)]
  constructor
  · have hc := createMultipleItems_fst_length
      (processRows (mapHeaders ((parsedData.headD []).map
        (fun p => p.1))).headerMap parsedData 0).1 s
    rw [hc, processRows_snd_length, processRows_fst, processRows_snd,
      List.enum, List.length_map]
  · rw [processRows_fst]

/-- Claim C2: when a required canonical field is unmatched by every file
header, the upload is rejected whole — the store is unchanged — with the
missing list exactly the required canonical fields that no alias matched
and a message naming them. -/
theorem c2_missing_columns (s : Store)
    (parsedData : List (List (String × String)))
    (h1 : ¬ parsedData = [])
    (h2 : ¬ (mapHeaders ((parsedData.headD []).map (fun p => p.1))).missing = []) :
    (uploadHandler s parsedData).1 =
      .missingColumns
        ("Missing required columns: " ++ String.intercalate ", "
          (mapHeaders ((parsedData.headD []).map (fun p => p.1))).missing)
        (mapHeaders ((parsedData.headD []).map (fun p => p.1))).missing
        (mapHeaders ((parsedData.headD []).map (fun p => p.1))).unmapped
        ((parsedData.headD []).map (fun p => p.1)) ∧
    (uploadHandler s parsedData).2 = s ∧
    (mapHeaders ((parsedData.headD []).map (fun p => p.1))).missing =
      (columnMappings.filter
        (fun spec => spec.required &&
          (firstAliasMatch spec.aliases
            ((parsedData.headD []).map (fun p => p.1))).isNone)).map
        (fun spec => spec.field) := by
  have hemp : parsedData.isEmpty = false := by
    cases parsedData with
    | nil => exact absurd rfl h1
    | cons a l => rfl
  refine ⟨?_, ?_, ?_⟩
  · rw [uploadHandler]
    simp only [hemp, Bool.false_eq_true, if_false]
    rw [if_pos h2]
  · rw [uploadHandler]
    simp only [hemp, Bool.false_eq_true, if_false]
    rw [if_pos h2]
  · show (mapFields (normPairs ((parsedData.headD []).map (fun p => p.1)))
        columnMappings).2 = _
    rw [mapFields_eq]
    exact congrArg (List.map (fun spec : ColumnSpec => spec.field))
      (List.filter_congr (fun spec _ => by simp only [findAlias_eq]))

theorem getItemsByBin_length_pos (s : Store) (name : String) :
    0 < (getItemsByBin s name).length ↔
      ∃ it ∈ s.items, jsLower it.binLocation = jsLower name := by
  rw [getItemsByBin, List.length_insertionSort, List.length_pos_iff_exists_mem]
  constructor
  · rintro ⟨it, hit⟩
    rw [List.mem_filter] at hit
    exact ⟨it, hit.1, by simpa using hit.2⟩
  · rintro ⟨it, hmem, heq⟩
    exact ⟨it, List.mem_filter.mpr ⟨hmem, by simpa using heq⟩⟩

/-- Claim C1 witness: a two-row file where the second row lacks a
description imports with created 1, errors 1 and "Row 3:" as the first
error line. -/
theorem c1_upload_outcome_witness :
    (uploadHandler exStore c1Rows).1 =
      .ok ⟨true, 1, 1,
        ["Row 3: Missing required fields (description and bin_location)"]⟩ :=
  (c1_upload_outcome exStore c1Rows (by decide) (by decide)).1.trans (by decide)

/-- Claim C2 witness: headers `item,price` leave binLocation unmatched;
the upload is rejected naming it and the store is unchanged. -/
theorem c2_missing_columns_witness :
    (uploadHandler exStore c2Rows).1 =
      .missingColumns "Missing required columns: binLocation"
        ["binLocation"] [] ["item", "price"] ∧
    (uploadHandler exStore c2Rows).2 = exStore :=
  ⟨(c2_missing_columns exStore c2Rows (by decide) (by decide)).1.trans
      (by decide),
   (c2_missing_columns exStore c2Rows (by decide) (by decide)).2.1⟩

/-- Claim C5 witness: the banner-row workbook instantiates the header-row
selection and row-filter characterization. -/
theorem c5_spreadsheet_pipeline_witness :
    ∃ i hs, headerChoice gEx = (i, hs) ∧
      ((i < 5 ∧ i < gEx.length ∧ qualifiesHeaderRow (gEx.getD i []) = true ∧
          (∀ m, m < i → qualifiesHeaderRow (gEx.getD m []) = false) ∧
          hs = (gEx.getD i []).map jsTrim) ∨
       (i = 0 ∧ (∀ r ∈ gEx.take 5, qualifiesHeaderRow r = false) ∧
          hs = (gEx.headD []).map jsTrim)) ∧
      parseSpreadsheetRows wbEx =
        some (((gEx.drop (i + 1)).filter
            (fun row => ¬ row.all (fun cell => jsTrim cell = ""))).map
          (fun row => mkRowSheet hs row)) :=
  c5_spreadsheet_pipeline.2.1 wbEx gEx (by decide) (by decide)

/-- Claim C6: while at least one item references a bin's current name
case-insensitively, renaming it to any different (validated) name is
rejected with the store untouched — and when the new name raises no
duplicate conflict the rejection reports the referencing item count;
deletion is rejected with that count under the same condition, and a bin
with zero referencing items is always deleted. -/
theorem c6_bin_integrity :
    (∀ (s : Store) (id : String) (u : UpdateBin) (currentBin : Bin) (n : String),
       getBinById s id = some currentBin →
       u.name = some n → ¬ n = "" → ¬ n = currentBin.name →
       (∃ it ∈ s.items, jsLower it.binLocation = jsLower currentBin.name) →
       (∀ b, ¬ (updateBinHandler s id u).1 = .ok b) ∧
       (updateBinHandler s id u).2 = s ∧
       ((∀ e, getBinByName s n = some e → e.id = id) →
         (updateBinHandler s id u).1 =
           .hasItems (getItemsByBin s currentBin.name).length)) ∧
    (∀ (s : Store) (id : String) (existingBin : Bin),
       getBinById s id = some existingBin →
       (∃ it ∈ s.items, jsLower it.binLocation = jsLower existingBin.name) →
       (deleteBinHandler s id).1 =
         .hasItems (getItemsByBin s existingBin.name).length ∧
       (deleteBinHandler s id).2 = s) ∧
    (∀ (s : Store) (id : String) (existingBin : Bin),
       getBinById s id = some existingBin →
       (∀ it ∈ s.items, ¬ jsLower it.binLocation = jsLower existingBin.name) →
       (deleteBinHandler s id).1 = .deleted ∧
       (deleteBinHandler s id).2.bins =
         s.bins.filter (fun b => ¬ b.id = id)) := by
  refine ⟨?_, ?_, ?_⟩
  · intro s id u currentBin n hbin hn hne hnc href
    have hpos : 0 < (getItemsByBin s currentBin.name).length :=
      (getItemsByBin_length_pos s currentBin.name).mpr href
    simp only [updateBinHandler, hbin, hn]
    rw [if_pos ⟨hne, hnc⟩]
    cases e : getBinByName s n with
    | none =>
      dsimp only
      rw [if_pos hpos]
      exact ⟨fun b h => BinUpdateResponse.noConfusion h, rfl, fun _ => rfl⟩
    | some existingBin =>
      dsimp only
      by_cases hid : existingBin.id = id
      · rw [if_neg (not_not_intro hid), if_pos hpos]
        exact ⟨fun b h => BinUpdateResponse.noConfusion h, rfl, fun _ => rfl⟩
      · rw [if_pos hid]
        refine ⟨fun b h => BinUpdateResponse.noConfusion h, rfl, fun hno => ?_⟩
        exact absurd (hno existingBin rfl) hid
  · intro s id existingBin hbin href
    have hpos : 0 < (getItemsByBin s existingBin.name).length :=
      (getItemsByBin_length_pos s existingBin.name).mpr href
    simp only [deleteBinHandler, hbin]
    rw [if_pos hpos]
    exact ⟨rfl, rfl⟩
  · intro s id existingBin hbin hnone
    have hz : (getItemsByBin s existingBin.name).length = 0 := by
      by_contra hc
      rcases (getItemsByBin_length_pos s existingBin.name).mp
        (Nat.pos_of_ne_zero hc) with ⟨it, hmem, heq⟩
      exact hnone it hmem heq
    have hbin' : s.bins.find? (fun b => b.id = id) = some existingBin := hbin
    have hany : s.bins.any (fun b => b.id = id) = true := by
      rw [List.any_eq_true]
      exact ⟨existingBin, List.mem_of_find?_eq_some hbin',
        by simpa using List.find?_some hbin'⟩
    simp only [deleteBinHandler, hbin, hz]
    rw [if_neg (by omega), deleteBin]
    rw [if_pos hany]
    exact ⟨rfl, rfl⟩

/-- Claim C6 witness: instantiates the three branches on a concrete
store whose single item references "Bin-1" as "BIN-1". -/
theorem c6_bin_integrity_witness :
    ((∀ b, ¬ (updateBinHandler c6Store "b1" c6Upd).1 = .ok b) ∧
     (updateBinHandler c6Store "b1" c6Upd).2 = c6Store ∧
     ((∀ e, getBinByName c6Store "Bin-2" = some e → e.id = "b1") →
       (updateBinHandler c6Store "b1" c6Upd).1 =
         .hasItems (getItemsByBin c6Store c6Bin.name).length)) ∧
    ((deleteBinHandler c6Store "b1").1 =
       .hasItems (getItemsByBin c6Store c6Bin.name).length ∧
     (deleteBinHandler c6Store "b1").2 = c6Store) ∧
    ((deleteBinHandler c6EmptyBinStore "b1").1 = .deleted ∧
     (deleteBinHandler c6EmptyBinStore "b1").2.bins =
       c6EmptyBinStore.bins.filter (fun b => ¬ b.id = "b1")) :=
  ⟨c6_bin_integrity.1 c6Store "b1" c6Upd c6Bin "Bin-2" (by decide) rfl
      (by decide) (by decide) ⟨c6Item, by decide, by decide⟩,
   c6_bin_integrity.2.1 c6Store "b1" c6Bin (by decide)
      ⟨c6Item, by decide, by decide⟩,
   c6_bin_integrity.2.2 c6EmptyBinStore "b1" c6Bin (by decide) (by decide)⟩

/-- Claim C7 counterexample: sold is not terminal — the generic item
update accepts a status field, so updating a sold item with
status "active" returns it to active both in the response and in the
store. -/
theorem c7_counterexample :
    (getItemById c7Store "i1").map Item.status = some "sold" ∧
    ((updateItemHandler c7Store "i1" c7Upd).1).map Item.status =
      some "active" ∧
    (getItemById (updateItemHandler c7Store "i1" c7Upd).2 "i1").map
      Item.status = some "active" := by decide

/-- Claim C7 (amended): marking an already-sold item as sold again is
rejected with the store unchanged; but sold is not terminal in general,
since the generic update operation can set status back to active. -/
theorem c7_amended (s : Store) (id : String) (sd : MarkSold) (it : Item)
    (hfind : getItemById s id = some it) (hsold : it.status = "sold") :
    (markSoldHandler s id sd).1 = .alreadySold ∧
    (markSoldHandler s id sd).2 = s := by
  simp only [markSoldHandler, hfind]
  rw [if_pos hsold]
  exact ⟨rfl, rfl⟩

/-- Claim C7 witness: the amended rejection at a concrete sold item. -/
theorem c7_amended_witness :
    (markSoldHandler c7Store "i1" ⟨none, none⟩).1 = .alreadySold ∧
    (markSoldHandler c7Store "i1" ⟨none, none⟩).2 = c7Store :=
  c7_amended c7Store "i1" ⟨none, none⟩ c7Item (by decide) (by decide)

theorem createMultipleBins_fst_names (l : List InsertBin) (s : Store) :
    ((createMultipleBins s l).1).map Bin.name = l.map InsertBin.name := by
  induction l generalizing s with
  | nil => rfl
  | cons ins rest ih => simp [createMultipleBins, createBin, ih]

theorem createMultipleBins_fst_colors (l : List InsertBin) (s : Store) :
    ((createMultipleBins s l).1).map Bin.color = l.map InsertBin.color := by
  induction l generalizing s with
  | nil => rfl
  | cons ins rest ih => simp [createMultipleBins, createBin, ih]

theorem createMultipleBins_snd_bins (l : List InsertBin) (s : Store) :
    ((createMultipleBins s l).2).bins = s.bins ++ (createMultipleBins s l).1 := by
  induction l generalizing s with
  | nil => simp [createMultipleBins]
  | cons ins rest ih => simp [createMultipleBins, createBin, ih]

/-- Claim C9: seeding is rejected (store untouched) whenever any bin
exists; on an empty bin table it creates exactly 31 bins named
Bin-0..Bin-30 with the fixed 31-color palette, whose colors are pairwise
distinct and whose first entry (Bin-0) is gray #808080. -/
theorem c9_bin_seed :
    (∀ s : Store, ¬ s.bins = [] →
       (seedBinsHandler s).1 = .alreadyExists s.bins.length ∧
       (seedBinsHandler s).2 = s) ∧
    (∀ s : Store, s.bins = [] →
       ((seedBinsHandler s).2).bins.map Bin.name =
         (List.range 31).map (fun i => "Bin-" ++ toString i) ∧
       ((seedBinsHandler s).2).bins.map Bin.color = binColors ∧
       ((seedBinsHandler s).2).bins.length = 31) ∧
    binColors.Nodup ∧ binColors.getD 0 "" = "#808080" := by
  refine ⟨?_, ?_, by decide, by decide⟩
  · intro s hb
    have hpos : 0 < s.bins.length := List.length_pos.mpr hb
    simp only [seedBinsHandler, getAllBins, List.length_insertionSort]
    rw [if_pos hpos]
    exact ⟨rfl, rfl⟩
  · intro s hb
    have hz : s.bins.length = 0 := by rw [hb]; rfl
    have hgen : generateDefaultBinsData = some seedInsertBins := by decide
    simp only [seedBinsHandler, getAllBins, List.length_insertionSort, hz,
      hgen]
    rw [if_neg (by omega)]
    dsimp only
    rw [createMultipleBins_snd_bins, hb, List.nil_append]
    refine ⟨?_, ?_, ?_⟩
    · rw [createMultipleBins_fst_names]
      decide
    · rw [createMultipleBins_fst_colors]
      decide
    · have hn := createMultipleBins_fst_names seedInsertBins s
      calc ((createMultipleBins s seedInsertBins).1).length
          = (((createMultipleBins s seedInsertBins).1).map Bin.name).length :=
            (List.length_map _ _).symm
        _ = 31 := by rw [hn]; decide

/-- Claim C9 witness: rejection on a store holding one bin, creation on
the empty store. -/
theorem c9_bin_seed_witness :
    ((seedBinsHandler c6EmptyBinStore).1 =
        .alreadyExists c6EmptyBinStore.bins.length ∧
     (seedBinsHandler c6EmptyBinStore).2 = c6EmptyBinStore) ∧
    ((seedBinsHandler exStore).2.bins.map Bin.name =
        (List.range 31).map (fun i => "Bin-" ++ toString i) ∧
     (seedBinsHandler exStore).2.bins.map Bin.color = binColors ∧
     (seedBinsHandler exStore).2.bins.length = 31) :=
  ⟨c9_bin_seed.1 c6EmptyBinStore (by decide), c9_bin_seed.2.1 exStore rfl⟩

/-- Claim C10: the export bin filter keeps an item iff its binLocation is
exactly (case-sensitively) the requested name, while getItemsByBin and
getBinByName compare case-insensitively; with an item stored under
"Bin-1", exporting "BIN-1" yields zero items although getItemsByBin
finds it. -/
theorem c10_export_bin_filter :
    (∀ (s : Store) (bin : String) (it : Item), ¬ bin = "" →
       (it ∈ exportItems s bin "" ↔ it ∈ s.items ∧ it.binLocation = bin)) ∧
    (∀ (s : Store) (name : String) (it : Item),
       it ∈ getItemsByBin s name ↔
         it ∈ s.items ∧ jsLower it.binLocation = jsLower name) ∧
    (∀ (s : Store) (name : String) (b : Bin),
       getBinByName s name = some b → jsLower b.name = jsLower name) ∧
    (exportItems c10Store "BIN-1" "" = [] ∧
     (getItemsByBin c10Store "BIN-1").map Item.id = ["i1"] ∧
     c10Item.binLocation = "Bin-1") := by
  refine ⟨?_, ?_, ?_, by decide, by decide, by decide⟩
  · intro s bin it hbin
    rw [exportItems]
    rw [if_pos hbin, if_neg (not_not_intro rfl)]
    rw [List.mem_filter, getAllItems, List.mem_insertionSort]
    simp
  · intro s name it
    rw [getItemsByBin, List.mem_insertionSort, List.mem_filter]
    simp
  · intro s name b h
    have h' : s.bins.find? (fun x => jsLower x.name = jsLower name) = some b := h
    simpa using List.find?_some h'

theorem c10_export_bin_filter_witness :
    (c10Item ∈ exportItems c10Store "Bin-1" "" ↔
       c10Item ∈ c10Store.items ∧ c10Item.binLocation = "Bin-1") ∧
    jsLower c6Bin.name = jsLower "BIN-1" :=
  ⟨c10_export_bin_filter.1 c10Store "Bin-1" c10Item (by decide),
   c10_export_bin_filter.2.2.1 c6Store "BIN-1" c6Bin (by decide)⟩

theorem lexLt_asymm (a : List Char) :
    ∀ b : List Char, lexLt a b = true → lexLt b a = false := by
  induction a with
  | nil =>
    intro b h
    cases b with
    | nil => simp [lexLt] at h
    | cons c cs => rfl
  | cons x xs ih =>
    intro b h
    cases b with
    | nil => simp [lexLt] at h
    | cons c cs =>
      rw [lexLt] at h ⊢
      by_cases h1 : x < c
      · have h2 : ¬ c < x := lt_asymm h1
        rw [if_neg h2, if_pos h1]
      · rw [if_neg h1] at h
        by_cases h2 : c < x
        · rw [if_pos h2] at h
          exact absurd h Bool.false_ne_true
        · rw [if_neg h2] at h
          rw [if_neg h2, if_neg h1]
          exact ih cs h

theorem lexLe_total (a b : List Char) :
    lexLe a b = true ∨ lexLe b a = true := by
  by_cases h : lexLt b a = true
  · right
    rw [lexLe, lexLt_asymm b a h]
    rfl
  · left
    rw [lexLe, Bool.eq_false_iff.mpr h]
    rfl

theorem binLe_total (a b : Bin) : binLe a b ∨ binLe b a := by
  rw [binLe, binLe]
  cases ea : extractBinNum a.name.data with
  | some na =>
    cases eb : extractBinNum b.name.data with
    | some nb =>
      rcases Nat.le_total na nb with h | h
      · left; simp [h]
      · right; simp [h]
    | none =>
      rcases lexLe_total a.name.data b.name.data with h | h
      · left; exact h
      · right; exact h
  | none =>
    cases eb : extractBinNum b.name.data with
    | some nb =>
      rcases lexLe_total a.name.data b.name.data with h | h
      · left; exact h
      · right; exact h
    | none =>
      rcases lexLe_total a.name.data b.name.data with h | h
      · left; exact h
      · right; exact h

theorem chain'_orderedInsert {α : Type} (r : α → α → Prop) [DecidableRel r]
    (htot : ∀ a b, r a b ∨ r b a) (x : α) :
    ∀ l : List α, l.Chain' r → (l.orderedInsert r x).Chain' r := by
  intro l
  induction l with
  | nil => intro _; simp [List.orderedInsert]
  | cons a t ih =>
    intro h
    rw [List.orderedInsert]
    by_cases hxa : r x a
    · rw [if_pos hxa]
      exact List.chain'_cons.mpr ⟨hxa, h⟩
    · rw [if_neg hxa]
      have hax : r a x := (htot x a).resolve_left hxa
      have ht : t.Chain' r := (List.chain'_cons'.mp h).2
      refine List.chain'_cons'.mpr ⟨?_, ih ht⟩
      intro y hy
      cases t with
      | nil =>
        simp [List.orderedInsert] at hy
        exact hy ▸ hax
      | cons b t' =>
        rw [List.orderedInsert] at hy
        by_cases hxb : r x b
        · rw [if_pos hxb] at hy
          simp at hy
          exact hy ▸ hax
        · rw [if_neg hxb] at hy
          simp at hy
          have hab : r a b := (List.chain'_cons'.mp h).1 b (by simp)
          exact hy ▸ hab

theorem chain'_insertionSort {α : Type} (r : α → α → Prop) [DecidableRel r]
    (htot : ∀ a b, r a b ∨ r b a) :
    ∀ l : List α, (l.insertionSort r).Chain' r := by
  intro l
  induction l with
  | nil => simp [List.insertionSort]
  | cons a t ih =>
    rw [List.insertionSort]
    exact chain'_orderedInsert r htot a _ ih

/-- Claim C8 counterexample: "A-10" and "A-2" both carry trailing
integers (10 and 2), yet getAllBins keeps "A-10" before "A-2": the code
compares numerically only when both names match `Bin-(\d+)`, not on
arbitrary trailing integers. -/
theorem c8_counterexample :
    getAllBins c8Store = [c8BinA10, c8BinA2] ∧
    trailingNum c8BinA10.name = some 10 ∧
    trailingNum c8BinA2.name = some 2 ∧
    claimBinLe c8BinA10 c8BinA2 = false := by decide

/-- Claim C8 (amended): getAllBins returns a permutation of the bins in
which every adjacent pair satisfies the code's comparator — numeric on
the integers captured by the first `Bin-(\d+)` occurrence when both names
contain one, and lexicographic string comparison otherwise. -/
theorem c8_amended :
    (∀ s : Store, (getAllBins s).Perm s.bins) ∧
    (∀ s : Store, (getAllBins s).Chain' binLe) ∧
    (∀ (a b : Bin) (na nb : Nat),
       extractBinNum a.name.data = some na →
       extractBinNum b.name.data = some nb →
       (binLe a b ↔ na ≤ nb)) ∧
    (∀ a b : Bin,
       (extractBinNum a.name.data = none ∨ extractBinNum b.name.data = none) →
       (binLe a b ↔ lexLe a.name.data b.name.data = true)) ∧
    (getAllBins c8NumStore).map Bin.name = ["Bin-2", "Bin-10"] := by
  refine ⟨?_, ?_, ?_, ?_, by decide⟩
  · intro s
    exact List.perm_insertionSort binLe s.bins
  · intro s
    exact chain'_insertionSort binLe binLe_total s.bins
  · intro a b na nb ha hb
    rw [binLe, ha, hb]
    simp
  · intro a b h
    rw [binLe]
    cases ea : extractBinNum a.name.data with
    | none =>
      cases eb : extractBinNum b.name.data with
      | none => exact Iff.rfl
      | some nb => exact Iff.rfl
    | some na =>
      cases eb : extractBinNum b.name.data with
      | none => exact Iff.rfl
      | some nb =>
        rcases h with h' | h'
        · rw [ea] at h'
          cases h'
        · rw [eb] at h'
          cases h'

/-- Claim C8 witness: the comparator characterizations instantiated on
concrete names. -/
theorem c8_amended_witness :
    (binLe ⟨"b3", "Bin-10", "#111111", 1, 1⟩ ⟨"b4", "Bin-2", "#222222", 2, 2⟩ ↔
      (10 : Nat) ≤ 2) ∧
    (binLe c8BinA10 c8BinA2 ↔ lexLe c8BinA10.name.data c8BinA2.name.data = true) :=
  ⟨c8_amended.2.2.1 ⟨"b3", "Bin-10", "#111111", 1, 1⟩
      ⟨"b4", "Bin-2", "#222222", 2, 2⟩ 10 2 (by decide) (by decide),
   c8_amended.2.2.2.1 c8BinA10 c8BinA2 (Or.inl (by decide))⟩

end ResellerLocator
